import Mathlib

/-!
# Verification of `pandaproxy::json` error-body serialization

Shallow embedding of `src/v/pandaproxy/json/requests/error_reply.h`:
the `error_body` record and the `rjson_serialize` overload that renders it
into a `rapidjson::Writer<rapidjson::StringBuffer>`.

The writer itself (rapidjson) and the scalar `::json::rjson_serialize`
overloads (json/json.h) are not part of the given sources, so they are
modelled from the spec: a streaming JSON writer that emits tokens
(`StartObject`, `Key`, scalar values, `EndObject`) into a byte buffer with
standard JSON string escaping, numbers in standard decimal notation, and
with the separators (`,` and `:`) demanded by the JSON grammar.

The model tracks three things per writer: the byte buffer produced so far,
the nesting state (for separator placement and well-nestedness), and a log
of the emitted tokens (for token-level claims).
-/

namespace PandaproxyJson

/-- A token emitted to the streaming JSON writer.  `num` and `str` are the
scalar values the two `::json::rjson_serialize` overloads used by
`error_reply.h` produce: the status code as a JSON number and the message
as a JSON string. -/
inductive Token where
  | startObject : Token
  | endObject : Token
  | key : String → Token
  | num : Int → Token
  | str : String → Token
deriving DecidableEq

/-- Nesting context of the writer inside an object, modelled from the spec
of the streaming writer: an opened object with no members yet, an object
with at least one complete member, or an object whose next member's key has
been written and whose value is pending. -/
inductive Ctx where
  | objFirst : Ctx
  | objMore : Ctx
  | objAfterKey : Ctx
deriving DecidableEq

/-- Modelled from the spec: the state of a `rapidjson::Writer` over a
`rapidjson::StringBuffer` — the bytes accumulated so far, the stack of open
nesting contexts, and the log of tokens emitted so far. -/
structure Writer where
  buf : List Char
  stack : List Ctx
  log : List Token
deriving DecidableEq

/-- A fresh writer over an empty string buffer. -/
def Writer.init : Writer := ⟨[], [], []⟩

/-- The hexadecimal digit characters (uppercase) used in `\u00XX` escapes. -/
def hexDigit (n : Nat) : Char :=
  match n with
  | 0 => '0' | 1 => '1' | 2 => '2' | 3 => '3' | 4 => '4'
  | 5 => '5' | 6 => '6' | 7 => '7' | 8 => '8' | 9 => '9'
  | 10 => 'A' | 11 => 'B' | 12 => 'C' | 13 => 'D' | 14 => 'E'
  | _ => 'F'

/-- Modelled from the spec: standard JSON escaping of one character —
quotes, backslashes and the named control characters get two-character
escapes, the remaining control characters (code < 0x20) get `\u00XX`, and
every other character is passed through unchanged. -/
def escapeChar (c : Char) : List Char :=
  if c = '"' then ['\\', '"']
  else if c = '\\' then ['\\', '\\']
  else if c = Char.ofNat 8 then ['\\', 'b']
  else if c = Char.ofNat 12 then ['\\', 'f']
  else if c = Char.ofNat 10 then ['\\', 'n']
  else if c = Char.ofNat 13 then ['\\', 'r']
  else if c = Char.ofNat 9 then ['\\', 't']
  else if c.toNat < 32 then
    ['\\', 'u', '0', '0', hexDigit (c.toNat / 16), hexDigit (c.toNat % 16)]
  else [c]

/-- Standard JSON escaping of a character sequence. -/
def escapeList (l : List Char) : List Char := l.flatMap escapeChar

/-- The decimal digit character for `n < 10`. -/
def digitChar (n : Nat) : Char :=
  match n with
  | 0 => '0' | 1 => '1' | 2 => '2' | 3 => '3' | 4 => '4'
  | 5 => '5' | 6 => '6' | 7 => '7' | 8 => '8' | _ => '9'

/-- Decimal digits of a natural number, most significant first, computed
with explicit fuel so that concrete instances reduce definitionally. -/
def natToCharsAux : Nat → Nat → List Char
  | 0, _ => []
  | fuel + 1, n =>
    if n < 10 then [digitChar n]
    else natToCharsAux fuel (n / 10) ++ [digitChar (n % 10)]

/-- Standard decimal notation of a natural number. -/
def natToChars (n : Nat) : List Char := natToCharsAux (n + 1) n

/-- Modelled from the spec: standard integer serialization of the status
code's underlying value — a minus sign for negative values followed by the
decimal digits. -/
def intToChars (i : Int) : List Char :=
  if i < 0 then '-' :: natToChars i.natAbs else natToChars i.toNat

/-- Modelled from the spec: separator placement before a value token.
Inside an object a value follows a key (no separator; the member is now
complete) — and for totality, a value written at the root or in any other
state gets no separator either, except after a complete member, where the
JSON grammar demands a comma. -/
def scalarPrefix : List Ctx → List Char × List Ctx
  | [] => ([], [])
  | Ctx.objFirst :: t => ([], Ctx.objMore :: t)
  | Ctx.objMore :: t => ([','], Ctx.objMore :: t)
  | Ctx.objAfterKey :: t => ([], Ctx.objMore :: t)

/-- Modelled from the spec: separator placement before a key token — a
comma after a complete member, nothing for the first member. -/
def keyPrefix : List Ctx → List Char × List Ctx
  | [] => ([], [])
  | Ctx.objFirst :: t => ([], Ctx.objAfterKey :: t)
  | Ctx.objMore :: t => ([','], Ctx.objAfterKey :: t)
  | Ctx.objAfterKey :: t => ([], Ctx.objAfterKey :: t)

/-- Modelled from the spec: `Writer::StartObject` — emit `{` (after any
needed separator) and open a new object context. -/
def Writer.startObject (w : Writer) : Writer :=
  let p := scalarPrefix w.stack
  { buf := w.buf ++ p.1 ++ ['{'],
    stack := Ctx.objFirst :: p.2,
    log := w.log ++ [Token.startObject] }

/-- Modelled from the spec: `Writer::EndObject` — emit `}` and close the
innermost open context. -/
def Writer.endObject (w : Writer) : Writer :=
  { buf := w.buf ++ ['}'],
    stack := w.stack.tail,
    log := w.log ++ [Token.endObject] }

/-- Modelled from the spec: `Writer::Key` — emit the key as an escaped JSON
string (after any needed separator) followed by the `:` separator. -/
def Writer.writeKey (w : Writer) (s : String) : Writer :=
  let p := keyPrefix w.stack
  { buf := w.buf ++ p.1 ++ '"' :: (escapeList s.data ++ ['"', ':']),
    stack := p.2,
    log := w.log ++ [Token.key s] }

/-- Modelled from the spec: the `::json::rjson_serialize` overload for the
status code (json/json.h is not in the given sources) — writes the numeric
HTTP status code as a JSON number in standard decimal notation. -/
def Writer.writeInt (w : Writer) (i : Int) : Writer :=
  let p := scalarPrefix w.stack
  { buf := w.buf ++ p.1 ++ intToChars i,
    stack := p.2,
    log := w.log ++ [Token.num i] }

/-- Modelled from the spec: the `::json::rjson_serialize` overload for the
message (json/json.h is not in the given sources) — writes the message as a
JSON string with standard JSON escaping. -/
def Writer.writeString (w : Writer) (s : String) : Writer :=
  let p := scalarPrefix w.stack
  { buf := w.buf ++ p.1 ++ '"' :: (escapeList s.data ++ ['"']),
    stack := p.2,
    log := w.log ++ [Token.str s] }

/-- `pandaproxy::json::error_body` from `error_reply.h`: the status code
(`ss::httpd::reply::status_type`, an enumeration with an underlying integer
value) and the message (`ss::sstring`). -/
structure error_body where
  error_code : Int
  message : String
deriving DecidableEq

/-- `pandaproxy::json::rjson_serialize` from `error_reply.h`, embedded
step for step: `StartObject`, `Key "error_code"`, serialize the code,
`Key "message"`, serialize the message, `EndObject`. -/
def rjson_serialize (w : Writer) (v : error_body) : Writer :=
  (((((w.startObject).writeKey "error_code").writeInt
      v.error_code).writeKey "message").writeString v.message).endObject

/-- Serialization into a fresh writer; the byte output. -/
def serializeChars (v : error_body) : List Char :=
  (rjson_serialize Writer.init v).buf

/-- The token sequence `rjson_serialize` emits for `v`. -/
def errorBodyTokens (v : error_body) : List Token :=
  [Token.startObject, Token.key "error_code", Token.num v.error_code,
   Token.key "message", Token.str v.message, Token.endObject]

/-- The bytes of the serialized object after the opening `{` and the first
member's opening quote. -/
def errorBodyMembersTail (v : error_body) : List Char :=
  'e' :: 'r' :: 'r' :: 'o' :: 'r' :: '_' :: 'c' :: 'o' :: 'd' :: 'e' :: '"' :: ':' ::
    (intToChars v.error_code ++
      ',' :: '"' :: 'm' :: 'e' :: 's' :: 's' :: 'a' :: 'g' :: 'e' :: '"' :: ':' :: '"' ::
        (escapeList v.message.data ++ '"' :: '}' :: []))

/-- The bytes of the serialized object after the opening `{`. -/
def errorBodyMembers (v : error_body) : List Char :=
  '"' :: errorBodyMembersTail v

/-- The byte output of `rjson_serialize` for `v`, in closed form. -/
def errorBodyChars (v : error_body) : List Char :=
  '{' :: errorBodyMembers v

/-- The key carried by a key token, if any. -/
def Token.keyName : Token → Option String
  | Token.key s => some s
  | _ => none

/-- The keys of a token sequence, in emission order. -/
def keysOf (ts : List Token) : List String := ts.filterMap Token.keyName

/-- Whether a token is a JSON number value. -/
def Token.isNumber : Token → Bool
  | Token.num _ => true
  | _ => false

/-- Whether a token is a JSON string value. -/
def Token.isString : Token → Bool
  | Token.str _ => true
  | _ => false

/-- The token immediately following the first `key k` token. -/
def valueAfter (k : String) : List Token → Option Token
  | [] => none
  | Token.key s :: rest =>
    if s = k then rest.head? else valueAfter k rest
  | _ :: rest => valueAfter k rest

/-- Run the object-nesting depth across a token sequence: `startObject`
opens a level, `endObject` closes one and fails when none is open. -/
def nestCheck : List Token → Nat → Option Nat
  | [], d => some d
  | Token.startObject :: rest, d => nestCheck rest (d + 1)
  | Token.endObject :: rest, d =>
    match d with
    | 0 => none
    | d' + 1 => nestCheck rest d'
  | _ :: rest, d => nestCheck rest d

/-! ## A JSON reader for the round-trip claim

Modelled from the spec: "decoding the produced JSON with a standard JSON
parser".  No parser is part of the given sources, so this is a reader for
the produced wire format's grammar — a compact (whitespace-free) JSON
object whose member values are numbers or strings, with standard JSON
string unescaping. -/

/-- A parsed flat JSON value: a number or a string. -/
inductive JValue where
  | num : Int → JValue
  | str : List Char → JValue
deriving DecidableEq

/-- Whether a character is a decimal digit. -/
def isDigitCh (c : Char) : Bool := '0' ≤ c && c ≤ '9'

/-- The value of a hexadecimal digit character. -/
def hexVal (c : Char) : Nat :=
  if '0' ≤ c && c ≤ '9' then c.toNat - 48
  else if 'A' ≤ c && c ≤ 'F' then c.toNat - 55
  else if 'a' ≤ c && c ≤ 'f' then c.toNat - 87
  else 0

/-- Consume a maximal run of decimal digits, accumulating their value. -/
def parseDigits : List Char → Nat → Nat × List Char
  | [], acc => (acc, [])
  | c :: cs, acc =>
    if isDigitCh c then parseDigits cs (acc * 10 + (c.toNat - 48))
    else (acc, c :: cs)

/-- Parse a JSON integer: an optional minus sign followed by at least one
decimal digit. -/
def parseInt : List Char → Option (Int × List Char)
  | [] => none
  | c :: cs =>
    if c = '-' then
      match cs with
      | [] => none
      | c2 :: _ =>
        if isDigitCh c2 then
          let p := parseDigits cs 0
          some (-(p.1 : Int), p.2)
        else none
    else if isDigitCh c then
      let p := parseDigits (c :: cs) 0
      some ((p.1 : Int), p.2)
    else none

/-- Parse the body of a JSON string (after the opening quote) up to the
closing quote, undoing the standard escapes. -/
def parseStringBody : List Char → List Char → Option (List Char × List Char)
  | [], _ => none
  | c :: rest, acc =>
    if c = '"' then some (acc.reverse, rest)
    else if c = '\\' then
      match rest with
      | [] => none
      | e :: rest2 =>
        if e = '"' then parseStringBody rest2 ('"' :: acc)
        else if e = '\\' then parseStringBody rest2 ('\\' :: acc)
        else if e = '/' then parseStringBody rest2 ('/' :: acc)
        else if e = 'b' then parseStringBody rest2 (Char.ofNat 8 :: acc)
        else if e = 'f' then parseStringBody rest2 (Char.ofNat 12 :: acc)
        else if e = 'n' then parseStringBody rest2 (Char.ofNat 10 :: acc)
        else if e = 'r' then parseStringBody rest2 (Char.ofNat 13 :: acc)
        else if e = 't' then parseStringBody rest2 (Char.ofNat 9 :: acc)
        else if e = 'u' then
          match rest2 with
          | h1 :: h2 :: h3 :: h4 :: rest3 =>
            parseStringBody rest3
              (Char.ofNat (((hexVal h1 * 16 + hexVal h2) * 16 + hexVal h3) * 16 + hexVal h4) :: acc)
          | _ => none
        else none
    else parseStringBody rest (c :: acc)

/-- Parse one member value: a string when it opens with a quote, otherwise
a number. -/
def parseValue (cs : List Char) : Option (JValue × List Char) :=
  match cs with
  | [] => none
  | c :: rest =>
    if c = '"' then
      match parseStringBody rest [] with
      | some p => some (JValue.str p.1, p.2)
      | none => none
    else
      match parseInt (c :: rest) with
      | some p => some (JValue.num p.1, p.2)
      | none => none

/-- Parse the members of an object after its `{`, up to and including the
closing `}`; the fuel bounds the number of members. -/
def parseMembers : Nat → List Char → Option (List (List Char × JValue) × List Char)
  | 0, _ => none
  | fuel + 1, cs =>
    match cs with
    | [] => none
    | c0 :: cs1 =>
      if c0 = '"' then
        match parseStringBody cs1 [] with
        | none => none
        | some (k, cs2) =>
          match cs2 with
          | [] => none
          | c2 :: cs3 =>
            if c2 = ':' then
              match parseValue cs3 with
              | none => none
              | some (v, cs4) =>
                match cs4 with
                | [] => none
                | c4 :: cs5 =>
                  if c4 = ',' then
                    match parseMembers fuel cs5 with
                    | none => none
                    | some (ms, cs6) => some ((k, v) :: ms, cs6)
                  else if c4 = '}' then some ([(k, v)], cs5)
                  else none
            else none
      else none

/-- Parse a complete JSON object from the start of the input, returning its
members in order and the remaining input. -/
def parseTopObject (cs : List Char) : Option (List (List Char × JValue) × List Char) :=
  match cs with
  | [] => none
  | c :: cs1 =>
    if c = '{' then
      match cs1 with
      | [] => none
      | c2 :: cs2 => if c2 = '}' then some ([], cs2) else parseMembers (cs1.length + 1) cs1
    else none

/-- The value a run of digit characters denotes, extending `acc`. -/
def digitsVal (l : List Char) (acc : Nat) : Nat :=
  l.foldl (fun a c => a * 10 + (c.toNat - 48)) acc

/-- Whether the input does not begin with a decimal digit. -/
def headNotDigit : List Char → Bool
  | [] => true
  | c :: _ => !isDigitCh c

/-! ## Theorems -/

/-- Closed form of the serializer on a writer in root state: the buffer is
extended by exactly the object's bytes, the nesting stack returns to the
root, and the log is extended by exactly the six tokens. -/
theorem rjson_serialize_closed (w : Writer) (v : error_body) (h : w.stack = []) :
    rjson_serialize w v =
      { buf := w.buf ++ errorBodyChars v,
        stack := [],
        log := w.log ++ errorBodyTokens v } := by
  cases w with
  | mk buf stack log =>
    cases h
    simp [rjson_serialize, Writer.startObject, Writer.writeKey, Writer.writeInt,
      Writer.writeString, Writer.endObject, scalarPrefix, keyPrefix,
      errorBodyChars, errorBodyMembers, errorBodyMembersTail, errorBodyTokens, escapeList]
    rfl

/-- Every character `digitChar` produces is a decimal digit. -/
theorem isDigitCh_digitChar (m : Nat) : isDigitCh (digitChar m) = true := by
  unfold digitChar
  split <;> decide

/-- For `m < 10`, `digitChar m` denotes `m`. -/
theorem digitChar_val (m : Nat) (h : m < 10) : (digitChar m).toNat - 48 = m := by
  interval_cases m <;> decide

/-- `digitChar` never produces a quote. -/
theorem digitChar_ne_quote (m : Nat) : digitChar m ≠ '"' := by
  unfold digitChar
  split <;> decide

/-- `parseDigits` consumes exactly a digit run followed by a non-digit. -/
theorem parseDigits_spec (ds : List Char) (rest : List Char) (acc : Nat)
    (hds : ds.all isDigitCh = true) (hrest : headNotDigit rest = true) :
    parseDigits (ds ++ rest) acc = (digitsVal ds acc, rest) := by
  induction ds generalizing acc with
  | nil =>
    cases rest with
    | nil => rfl
    | cons c cs =>
      simp only [headNotDigit, Bool.not_eq_true'] at hrest
      simp [parseDigits, hrest, digitsVal]
  | cons d ds ih =>
    simp only [List.all_cons, Bool.and_eq_true] at hds
    simp [parseDigits, hds.1, ih _ hds.2, digitsVal]

/-- `digitsVal` over a trailing digit. -/
theorem digitsVal_append_singleton (l : List Char) (d : Char) (acc : Nat) :
    digitsVal (l ++ [d]) acc = digitsVal l acc * 10 + (d.toNat - 48) := by
  simp [digitsVal, List.foldl_append]

/-- Correctness of the fuelled digit printer: with enough fuel it produces
a nonempty run of digit characters denoting its input. -/
theorem natToCharsAux_spec (fuel : Nat) : ∀ n, n < fuel →
    (natToCharsAux fuel n).all isDigitCh = true ∧
    (∃ c t, natToCharsAux fuel n = c :: t ∧ isDigitCh c = true) ∧
    ∀ acc, digitsVal (natToCharsAux fuel n) acc =
      acc * 10 ^ (natToCharsAux fuel n).length + n := by
  induction fuel with
  | zero => intro n h; omega
  | succ fuel ih =>
    intro n h
    by_cases h10 : n < 10
    · refine ⟨?_, ⟨digitChar n, [], ?_, isDigitCh_digitChar n⟩, ?_⟩
      · simp [natToCharsAux, h10, isDigitCh_digitChar]
      · simp [natToCharsAux, h10]
      · intro acc
        simp [natToCharsAux, h10, digitsVal, digitChar_val n h10]
    · have hdiv : n / 10 < fuel := by
        have h1 : n / 10 < n := Nat.div_lt_self (by omega) (by omega)
        omega
      obtain ⟨hall, ⟨c, t, hct, hc⟩, hval⟩ := ih (n / 10) hdiv
      have hunfold : natToCharsAux (fuel + 1) n =
          natToCharsAux fuel (n / 10) ++ [digitChar (n % 10)] := by
        simp [natToCharsAux, h10]
      refine ⟨?_, ⟨c, t ++ [digitChar (n % 10)], ?_, hc⟩, ?_⟩
      · simp [hunfold, List.all_append, hall, isDigitCh_digitChar]
      · simp [hunfold, hct]
      · intro acc
        rw [hunfold, digitsVal_append_singleton, hval acc,
          digitChar_val _ (Nat.mod_lt _ (by omega))]
        simp only [List.length_append, List.length_cons, List.length_nil, pow_succ]
        have hmod : 10 * (n / 10) + n % 10 = n := Nat.div_add_mod n 10
        ring_nf
        omega

/-- Parsing the decimal notation of `n` followed by a non-digit yields `n`
and the rest. -/
theorem parseDigits_natToChars (n : Nat) (rest : List Char)
    (hrest : headNotDigit rest = true) :
    parseDigits (natToChars n ++ rest) 0 = (n, rest) := by
  obtain ⟨hall, _, hval⟩ := natToCharsAux_spec (n + 1) n (by omega)
  rw [natToChars, parseDigits_spec _ _ _ hall hrest, hval 0]
  simp

/-- The decimal notation of `n` starts with a digit character. -/
theorem natToChars_head (n : Nat) :
    ∃ c t, natToChars n = c :: t ∧ isDigitCh c = true :=
  (natToCharsAux_spec (n + 1) n (by omega)).2.1

/-- A digit character is not a minus sign or a quote. -/
theorem isDigitCh_ne (c : Char) (h : isDigitCh c = true) : c ≠ '-' ∧ c ≠ '"' := by
  constructor <;> rintro rfl <;> simp [isDigitCh] at h

/-- Parsing the serialized status code followed by a non-digit yields the
code and the rest. -/
theorem parseInt_intToChars (i : Int) (rest : List Char)
    (hrest : headNotDigit rest = true) :
    parseInt (intToChars i ++ rest) = some (i, rest) := by
  by_cases hi : i < 0
  · obtain ⟨c, t, hct, hc⟩ := natToChars_head i.natAbs
    have habs : ((i.natAbs : Int)) = -i := by omega
    simp only [intToChars, if_pos hi, List.cons_append, parseInt, if_pos rfl]
    rw [hct, List.cons_append]
    simp only [if_pos hc, ← List.cons_append, ← hct,
      parseDigits_natToChars i.natAbs rest hrest]
    simp [habs]
  · obtain ⟨c, t, hct, hc⟩ := natToChars_head i.toNat
    have htn : ((i.toNat : Int)) = i := by omega
    simp only [intToChars, if_neg hi]
    rw [hct, List.cons_append]
    simp only [parseInt, if_neg (isDigitCh_ne c hc).1, if_pos hc]
    rw [← List.cons_append, ← hct, parseDigits_natToChars i.toNat rest hrest]
    simp [htn]

/-- The serialized status code starts with a character that is not a
quote. -/
theorem intToChars_head (i : Int) :
    ∃ c t, intToChars i = c :: t ∧ c ≠ '"' := by
  by_cases hi : i < 0
  · exact ⟨'-', natToChars i.natAbs, by simp [intToChars, hi], by decide⟩
  · obtain ⟨c, t, hct, hc⟩ := natToChars_head i.toNat
    exact ⟨c, t, by simp [intToChars, hi, hct], (isDigitCh_ne c hc).2⟩

/-- `hexDigit` digits decode back through `hexVal`. -/
theorem hexVal_hexDigit (m : Nat) (h : m < 16) : hexVal (hexDigit m) = m := by
  interval_cases m <;> decide

/-- A closing quote ends the string body. -/
theorem psb_close (l acc : List Char) :
    parseStringBody ('"' :: l) acc = some (acc.reverse, l) := by
  rw [parseStringBody.eq_def]
  simp

/-- Stepping over an escaped quote. -/
theorem psb_esc_quote (l acc : List Char) :
    parseStringBody ('\\' :: '"' :: l) acc = parseStringBody l ('"' :: acc) := by
  rw [parseStringBody.eq_def]
  simp

/-- Stepping over an escaped backslash. -/
theorem psb_esc_backslash (l acc : List Char) :
    parseStringBody ('\\' :: '\\' :: l) acc = parseStringBody l ('\\' :: acc) := by
  rw [parseStringBody.eq_def]
  simp

/-- Stepping over an escaped backspace. -/
theorem psb_esc_b (l acc : List Char) :
    parseStringBody ('\\' :: 'b' :: l) acc =
      parseStringBody l (Char.ofNat 8 :: acc) := by
  rw [parseStringBody.eq_def]
  simp

/-- Stepping over an escaped form feed. -/
theorem psb_esc_f (l acc : List Char) :
    parseStringBody ('\\' :: 'f' :: l) acc =
      parseStringBody l (Char.ofNat 12 :: acc) := by
  rw [parseStringBody.eq_def]
  simp

/-- Stepping over an escaped line feed. -/
theorem psb_esc_n (l acc : List Char) :
    parseStringBody ('\\' :: 'n' :: l) acc =
      parseStringBody l (Char.ofNat 10 :: acc) := by
  rw [parseStringBody.eq_def]
  simp

/-- Stepping over an escaped carriage return. -/
theorem psb_esc_r (l acc : List Char) :
    parseStringBody ('\\' :: 'r' :: l) acc =
      parseStringBody l (Char.ofNat 13 :: acc) := by
  rw [parseStringBody.eq_def]
  simp

/-- Stepping over an escaped tab. -/
theorem psb_esc_t (l acc : List Char) :
    parseStringBody ('\\' :: 't' :: l) acc =
      parseStringBody l (Char.ofNat 9 :: acc) := by
  rw [parseStringBody.eq_def]
  simp

/-- Stepping over a `\u` escape. -/
theorem psb_esc_u (d1 d2 d3 d4 : Char) (l acc : List Char) :
    parseStringBody ('\\' :: 'u' :: d1 :: d2 :: d3 :: d4 :: l) acc =
      parseStringBody l
        (Char.ofNat (((hexVal d1 * 16 + hexVal d2) * 16 + hexVal d3) * 16 +
          hexVal d4) :: acc) := by
  rw [parseStringBody.eq_def]
  simp

/-- Stepping over an unescaped character. -/
theorem psb_plain (c : Char) (l acc : List Char) (h1 : c ≠ '"') (h2 : c ≠ '\\') :
    parseStringBody (c :: l) acc = parseStringBody l (c :: acc) := by
  rw [parseStringBody.eq_def]
  simp [h1, h2]

/-- Unescaping inverts escaping: parsing the escaped text up to the closing
quote recovers the original characters and the rest of the input. -/
theorem parseStringBody_escapeList (s : List Char) : ∀ rest acc : List Char,
    parseStringBody (escapeList s ++ '"' :: rest) acc =
      some (acc.reverse ++ s, rest) := by
  induction s with
  | nil =>
    intro rest acc
    simp only [escapeList, List.flatMap_nil, List.nil_append, psb_close,
      List.append_nil]
  | cons c s ih =>
    intro rest acc
    have hE : escapeList (c :: s) ++ '"' :: rest =
        escapeChar c ++ (escapeList s ++ '"' :: rest) := by
      simp [escapeList]
    rw [hE]
    by_cases h1 : c = '"'
    · subst h1
      rw [show escapeChar '"' = ['\\', '"'] from rfl]
      simp only [List.cons_append, List.nil_append]
      rw [psb_esc_quote, ih]
      simp [List.append_assoc]
    by_cases h2 : c = '\\'
    · subst h2
      rw [show escapeChar '\\' = ['\\', '\\'] from rfl]
      simp only [List.cons_append, List.nil_append]
      rw [psb_esc_backslash, ih]
      simp [List.append_assoc]
    by_cases h3 : c = Char.ofNat 8
    · subst h3
      rw [show escapeChar (Char.ofNat 8) = ['\\', 'b'] from rfl]
      simp only [List.cons_append, List.nil_append]
      rw [psb_esc_b, ih]
      simp [List.append_assoc]
    by_cases h4 : c = Char.ofNat 12
    · subst h4
      rw [show escapeChar (Char.ofNat 12) = ['\\', 'f'] from rfl]
      simp only [List.cons_append, List.nil_append]
      rw [psb_esc_f, ih]
      simp [List.append_assoc]
    by_cases h5 : c = Char.ofNat 10
    · subst h5
      rw [show escapeChar (Char.ofNat 10) = ['\\', 'n'] from rfl]
      simp only [List.cons_append, List.nil_append]
      rw [psb_esc_n, ih]
      simp [List.append_assoc]
    by_cases h6 : c = Char.ofNat 13
    · subst h6
      rw [show escapeChar (Char.ofNat 13) = ['\\', 'r'] from rfl]
      simp only [List.cons_append, List.nil_append]
      rw [psb_esc_r, ih]
      simp [List.append_assoc]
    by_cases h7 : c = Char.ofNat 9
    · subst h7
      rw [show escapeChar (Char.ofNat 9) = ['\\', 't'] from rfl]
      simp only [List.cons_append, List.nil_append]
      rw [psb_esc_t, ih]
      simp [List.append_assoc]
    by_cases h8 : c.toNat < 32
    · have hesc : escapeChar c =
          ['\\', 'u', '0', '0', hexDigit (c.toNat / 16), hexDigit (c.toNat % 16)] := by
        simp [escapeChar, h1, h2, h3, h4, h5, h6, h7, h8]
      rw [hesc]
      simp only [List.cons_append, List.nil_append]
      rw [psb_esc_u]
      have hcc : ((hexVal '0' * 16 + hexVal '0') * 16 +
          hexVal (hexDigit (c.toNat / 16))) * 16 +
            hexVal (hexDigit (c.toNat % 16)) = c.toNat := by
        rw [hexVal_hexDigit (c.toNat / 16) (by omega),
          hexVal_hexDigit (c.toNat % 16) (by omega)]
        have hv0 : hexVal '0' = 0 := by decide
        rw [hv0]
        omega
      rw [hcc, Char.ofNat_toNat, ih]
      simp [List.append_assoc]
    · have hesc : escapeChar c = [c] := by
        simp [escapeChar, h1, h2, h3, h4, h5, h6, h7, h8]
      rw [hesc]
      simp only [List.cons_append, List.nil_append]
      rw [psb_plain c _ _ h1 h2, ih]
      simp [List.append_assoc]

/-- A serialized integer parses as a number value. -/
theorem parseValue_int (i : Int) (rest : List Char)
    (hrest : headNotDigit rest = true) :
    parseValue (intToChars i ++ rest) = some (JValue.num i, rest) := by
  obtain ⟨c, t, hct, hc⟩ := intToChars_head i
  rw [hct, List.cons_append]
  simp only [parseValue, if_neg hc]
  rw [← List.cons_append, ← hct, parseInt_intToChars i rest hrest]

/-- A serialized, escaped string parses as a string value. -/
theorem parseValue_str (s rest : List Char) :
    parseValue ('"' :: (escapeList s ++ '"' :: rest)) =
      some (JValue.str s, rest) := by
  simp [parseValue, parseStringBody_escapeList]

/-- Parsing the members of the serialized error body yields exactly the two
members, in order, with nothing left over. -/
theorem parseMembers_errorBody (f : Nat) (c : Int) (s : String) :
    parseMembers (f + 2) (errorBodyMembers ⟨c, s⟩) =
      some ([("error_code".data, JValue.num c),
             ("message".data, JValue.str s.data)], []) := by
  have h1 : parseStringBody (errorBodyMembersTail ⟨c, s⟩) [] =
      some ("error_code".data,
        ':' :: (intToChars c ++
          ',' :: '"' :: 'm' :: 'e' :: 's' :: 's' :: 'a' :: 'g' :: 'e' :: '"' :: ':' :: '"' ::
            (escapeList s.data ++ '"' :: '}' :: []))) :=
    parseStringBody_escapeList "error_code".data
      (':' :: (intToChars c ++
        ',' :: '"' :: 'm' :: 'e' :: 's' :: 's' :: 'a' :: 'g' :: 'e' :: '"' :: ':' :: '"' ::
          (escapeList s.data ++ '"' :: '}' :: []))) []
  have h2 : parseValue (intToChars c ++
      ',' :: '"' :: 'm' :: 'e' :: 's' :: 's' :: 'a' :: 'g' :: 'e' :: '"' :: ':' :: '"' ::
        (escapeList s.data ++ '"' :: '}' :: [])) =
      some (JValue.num c,
        ',' :: '"' :: 'm' :: 'e' :: 's' :: 's' :: 'a' :: 'g' :: 'e' :: '"' :: ':' :: '"' ::
          (escapeList s.data ++ '"' :: '}' :: [])) :=
    parseValue_int c _ rfl
  have h4 : parseStringBody
      ('m' :: 'e' :: 's' :: 's' :: 'a' :: 'g' :: 'e' :: '"' :: ':' :: '"' ::
        (escapeList s.data ++ '"' :: '}' :: [])) [] =
      some ("message".data,
        ':' :: '"' :: (escapeList s.data ++ '"' :: '}' :: [])) :=
    parseStringBody_escapeList "message".data
      (':' :: '"' :: (escapeList s.data ++ '"' :: '}' :: [])) []
  have h3 : parseValue ('"' :: (escapeList s.data ++ '"' :: '}' :: [])) =
      some (JValue.str s.data, '}' :: []) :=
    parseValue_str s.data ('}' :: [])
  show parseMembers ((f + 1) + 1) ('"' :: errorBodyMembersTail ⟨c, s⟩) = _
  simp [parseMembers, h1, h2, h3, h4]

/-- Round trip at the byte level: a standard JSON parse of the serialized
bytes recovers the two members exactly, in order, consuming all input. -/
theorem parseTopObject_serialize (c : Int) (s : String) :
    parseTopObject (serializeChars ⟨c, s⟩) =
      some ([("error_code".data, JValue.num c),
             ("message".data, JValue.str s.data)], []) := by
  have hser : serializeChars ⟨c, s⟩ = '{' :: errorBodyMembers ⟨c, s⟩ := by
    rw [serializeChars, rjson_serialize_closed Writer.init _ rfl]
    simp [Writer.init, errorBodyChars]
  rw [hser]
  simp only [errorBodyMembers, parseTopObject, List.length_cons]
  exact parseMembers_errorBody (errorBodyMembersTail ⟨c, s⟩).length c s

/-- The token log of `rjson_serialize` on any writer, in any state: exactly
the six tokens are appended. -/
theorem rjson_serialize_log (w : Writer) (v : error_body) :
    (rjson_serialize w v).log = w.log ++ errorBodyTokens v := by
  cases w with
  | mk buf stack log =>
    simp [rjson_serialize, Writer.startObject, Writer.writeKey, Writer.writeInt,
      Writer.writeString, Writer.endObject, errorBodyTokens]

/-- A value separator is at most one byte. -/
theorem scalarPrefix_len (st : List Ctx) : (scalarPrefix st).1.length ≤ 1 := by
  cases st with
  | nil => simp [scalarPrefix]
  | cons hd tl => cases hd <;> simp [scalarPrefix]

/-- Escaping one character produces at most six bytes. -/
theorem escapeChar_length_le (ch : Char) : (escapeChar ch).length ≤ 6 := by
  unfold escapeChar
  split_ifs <;> simp

/-- Escaping a character sequence is at most a six-fold expansion. -/
theorem escapeList_length_le (l : List Char) :
    (escapeList l).length ≤ 6 * l.length := by
  induction l with
  | nil => simp [escapeList]
  | cons ch l ih =>
    have h := escapeChar_length_le ch
    simp only [escapeList, List.flatMap_cons, List.length_append, List.length_cons]
    simp only [escapeList] at ih
    omega

/-- Every hexadecimal digit character code is at least 32. -/
theorem hexDigit_ge32 (m : Nat) : 32 ≤ (hexDigit m).toNat := by
  unfold hexDigit
  split <;> decide

/-- Escaping one character emits no raw control characters. -/
theorem escapeChar_no_control (ch : Char) :
    (escapeChar ch).all (fun d => 32 ≤ d.toNat) = true := by
  unfold escapeChar
  split_ifs with h1 h2 h3 h4 h5 h6 h7 h8
  · decide
  · decide
  · decide
  · decide
  · decide
  · decide
  · decide
  · simp [List.all_cons, hexDigit_ge32]
  · simp [List.all_cons]
    omega

/-- The escaped message text contains no raw control characters: every
character with code below 32 was replaced by an escape sequence. -/
theorem escapeList_no_control (l : List Char) :
    (escapeList l).all (fun d => 32 ≤ d.toNat) = true := by
  induction l with
  | nil => simp [escapeList]
  | cons ch l ih =>
    simp only [escapeList, List.flatMap_cons, List.all_append]
    simp only [escapeList] at ih
    simp [escapeChar_no_control, ih]

/-- C1: for every valid status code `c` and every string `s`, serializing
`ErrorBody{c, s}` emits exactly one JSON object containing exactly the two
keys `error_code` and `message`, in that fixed order, with no extra keys:
the emitted token sequence is exactly the six object tokens, its keys are
exactly the two in order, and a standard parse of the bytes yields exactly
those two member keys in order. -/
theorem serialize_emits_exactly_two_keys_in_order (c : Int) (s : String) (w : Writer) :
    (rjson_serialize w ⟨c, s⟩).log = w.log ++ errorBodyTokens ⟨c, s⟩ ∧
    keysOf (errorBodyTokens ⟨c, s⟩) = ["error_code", "message"] ∧
    (parseTopObject (serializeChars ⟨c, s⟩)).map (fun r => r.1.map Prod.fst) =
      some ["error_code".data, "message".data] := by
  refine ⟨rjson_serialize_log w ⟨c, s⟩, rfl, ?_⟩
  rw [parseTopObject_serialize]
  rfl

/-- C2: the value written under the key `error_code` is a JSON number token
carrying exactly the status code's underlying integer value — not a JSON
string. -/
theorem error_code_serialized_as_number (c : Int) (s : String) (w : Writer) :
    valueAfter "error_code" (errorBodyTokens ⟨c, s⟩) = some (Token.num c) ∧
    Token.isNumber (Token.num c) = true ∧
    Token.isString (Token.num c) = false ∧
    (rjson_serialize w ⟨c, s⟩).log = w.log ++ errorBodyTokens ⟨c, s⟩ := by
  refine ⟨?_, rfl, rfl, rjson_serialize_log w ⟨c, s⟩⟩
  rfl

/-- C3: the value written under the key `message` is a JSON string token
carrying the message; its escaped byte form contains no raw control
characters, and unescaping it recovers exactly the original message. -/
theorem message_serialized_as_escaped_string (c : Int) (s : String) (w : Writer) :
    valueAfter "message" (errorBodyTokens ⟨c, s⟩) = some (Token.str s) ∧
    (rjson_serialize w ⟨c, s⟩).log = w.log ++ errorBodyTokens ⟨c, s⟩ ∧
    (escapeList s.data).all (fun d => 32 ≤ d.toNat) = true ∧
    parseStringBody (escapeList s.data ++ '"' :: []) [] = some (s.data, []) := by
  refine ⟨?_, rjson_serialize_log w ⟨c, s⟩, escapeList_no_control s.data, ?_⟩
  · rfl
  · have h := parseStringBody_escapeList s.data [] []
    simpa using h

/-- C4: neither key is omitted regardless of the field values: every
serialization emits both keys, an empty message is still serialized as
`""`, and status code `0` is still serialized as a plain JSON number. -/
theorem no_field_omitted (c : Int) (s : String) (w : Writer) :
    keysOf (errorBodyTokens ⟨c, s⟩) = ["error_code", "message"] ∧
    serializeChars ⟨500, ""⟩ = "\x7b\"error_code\":500,\"message\":\"\"\x7d".data ∧
    serializeChars ⟨0, ""⟩ = "\x7b\"error_code\":0,\"message\":\"\"\x7d".data ∧
    (rjson_serialize w ⟨c, s⟩).log = w.log ++ errorBodyTokens ⟨c, s⟩ :=
  ⟨rfl, by decide, by decide, rjson_serialize_log w ⟨c, s⟩⟩

/-- C5: round trip — decoding the serialized bytes of `ErrorBody{c, s}`
with a standard JSON parser yields an object whose `error_code` member is
exactly the number `c` and whose `message` member is exactly the string
`s`, with nothing left over. -/
theorem serialize_parse_round_trip (c : Int) (s : String) :
    parseTopObject (serializeChars ⟨c, s⟩) =
      some ([("error_code".data, JValue.num c),
             ("message".data, JValue.str s.data)], []) ∧
    List.lookup "error_code".data
      [("error_code".data, JValue.num c), ("message".data, JValue.str s.data)] =
        some (JValue.num c) ∧
    List.lookup "message".data
      [("error_code".data, JValue.num c), ("message".data, JValue.str s.data)] =
        some (JValue.str s.data) :=
  ⟨parseTopObject_serialize c s, rfl, rfl⟩

/-- C6: determinism — serialization output depends only on the two fields
and the writer's initial state: identical writers and field values give
identical results (hence serializing twice into fresh writers in the same
state is byte-identical). -/
theorem serialize_deterministic (w1 w2 : Writer) (v1 v2 : error_body)
    (hw : w1 = w2) (hc : v1.error_code = v2.error_code)
    (hm : v1.message = v2.message) :
    rjson_serialize w1 v1 = rjson_serialize w2 v2 := by
  subst hw
  cases v1 with
  | mk a b =>
    cases v2 with
    | mk a2 b2 =>
      have ha : a = a2 := hc
      have hb : b = b2 := hm
      subst ha
      subst hb
      rfl

/-- Witness for C6 at a concrete input. -/
theorem serialize_deterministic_witness :
    rjson_serialize Writer.init ⟨400, "Bad Request"⟩ =
      rjson_serialize Writer.init ⟨400, "Bad Request"⟩ :=
  serialize_deterministic Writer.init Writer.init
    ⟨400, "Bad Request"⟩ ⟨400, "Bad Request"⟩ rfl rfl rfl

/-- C7: concrete scenarios — `ErrorBody{400, "Bad Request"}` serializes to
exactly `{"error_code":400,"message":"Bad Request"}` and
`ErrorBody{500, ""}` to exactly `{"error_code":500,"message":""}`. -/
theorem serialize_concrete_scenarios :
    serializeChars ⟨400, "Bad Request"⟩ =
      "\x7b\"error_code\":400,\"message\":\"Bad Request\"\x7d".data ∧
    serializeChars ⟨500, ""⟩ = "\x7b\"error_code\":500,\"message\":\"\"\x7d".data :=
  ⟨by decide, by decide⟩

/-- C8: frame condition — the serializer's only effect is on the writer:
the object's bytes are appended after whatever the writer already holds,
the nesting state is restored, and the log is extended by exactly the six
tokens.  (The `error_body` argument is taken by constant reference in the
source and is passed by value in this pure embedding, so it is unchanged by
construction.) -/
theorem serialize_frame_effect (v : error_body) (w : Writer) (h : w.stack = []) :
    (rjson_serialize w v).buf = w.buf ++ errorBodyChars v ∧
    (rjson_serialize w v).stack = w.stack ∧
    (rjson_serialize w v).log = w.log ++ errorBodyTokens v := by
  rw [rjson_serialize_closed w v h]
  exact ⟨rfl, h.symm, rfl⟩

/-- Witness for C8 at a concrete input. -/
theorem serialize_frame_effect_witness :
    Writer.init.stack = [] ∧
    (rjson_serialize Writer.init ⟨404, "topic not found"⟩).buf =
      Writer.init.buf ++ errorBodyChars ⟨404, "topic not found"⟩ :=
  ⟨rfl, (serialize_frame_effect ⟨404, "topic not found"⟩ Writer.init rfl).1⟩

/-- C9: totality and resource bound — the embedding of the serializer is a
total function (defined for every value and writer state) whose output
growth is linear in the message length: at most the digits of the code plus
six bytes per message character plus a fixed overhead. -/
theorem serialize_total_linear_output (v : error_body) (w : Writer) :
    (rjson_serialize w v).buf.length ≤
      w.buf.length + (intToChars v.error_code).length +
        6 * v.message.data.length + 32 := by
  cases w with
  | mk buf stack log =>
    have hp := scalarPrefix_len stack
    have he := escapeList_length_le v.message.data
    have hk1 : (escapeList ['e', 'r', 'r', 'o', 'r', '_', 'c', 'o', 'd', 'e']).length = 10 := by
      decide
    have hk2 : (escapeList ['m', 'e', 's', 's', 'a', 'g', 'e']).length = 7 := by decide
    have e1 : ∀ t, scalarPrefix (Ctx.objAfterKey :: t) = ([], Ctx.objMore :: t) :=
      fun t => rfl
    have e2 : ∀ t, keyPrefix (Ctx.objMore :: t) = ([','], Ctx.objAfterKey :: t) :=
      fun t => rfl
    have e3 : ∀ t, keyPrefix (Ctx.objFirst :: t) = ([], Ctx.objAfterKey :: t) :=
      fun t => rfl
    simp only [rjson_serialize, Writer.startObject, Writer.writeKey,
      Writer.writeInt, Writer.writeString, Writer.endObject, e1, e2, e3,
      List.length_append, List.length_cons, List.length_nil]
    omega

/-- C10: the token sequence emitted to the writer is exactly
`StartObject, Key "error_code", value, Key "message", value, EndObject`:
it is well nested, opens exactly one object and closes it, and a writer
starting at nesting root is returned to nesting root. -/
theorem serialize_well_nested_tokens (v : error_body) (w : Writer) :
    (rjson_serialize w v).log = w.log ++ errorBodyTokens v ∧
    nestCheck (errorBodyTokens v) 0 = some 0 ∧
    (errorBodyTokens v).count Token.startObject = 1 ∧
    (errorBodyTokens v).count Token.endObject = 1 ∧
    (rjson_serialize { buf := w.buf, stack := [], log := w.log } v).stack = [] := by
  refine ⟨rjson_serialize_log w v, ?_, ?_, ?_, ?_⟩
  · rfl
  · rfl
  · rfl
  · rw [rjson_serialize_closed ⟨w.buf, [], w.log⟩ v rfl]

end PandaproxyJson
